import Mathlib

/-!
Verification of the crawl-cache-score-assemble core of `src/app.py`
(BHF DSC documentation question-answering system).

Modelling conventions:
- Python strings are modelled by Lean `String` / `List Char`; the Python
  string operations used by the code (`str.strip`, `str.split`, `str.count`,
  `str.lower`, slicing) are embedded as executable functions below.
- Python whitespace (`\s`, `str.isspace`, `str.split()` separators) is
  modelled by the six ASCII whitespace characters.
- Python float arithmetic on relevance scores is modelled by exact
  rationals.
- The network fetch and the HTML parse of a page are external inputs; a
  parsed page is modelled by the `Soup` record of extracted text pieces,
  and the crawl result for each URL is an input function.
- The persisted JSON cache file is modelled at the level of the JSON value
  it holds (`Json` below); a file whose bytes cannot be read or parsed as
  JSON is modelled as holding no value.
-/

/-- Whitespace test modelling the ASCII characters matched by Python
whitespace (`str.isspace`, the regex class used in `clean_text`, and the
default separators of `str.split`). -/
def isPySpace (c : Char) : Bool :=
  c == ' ' || c == '\t' || c == '\n' || c == '\r' || c == '\x0b' || c == '\x0c'

/-- Python `str.strip()` on a character list: remove leading and trailing
whitespace. -/
def pyStrip (l : List Char) : List Char :=
  ((l.dropWhile isPySpace).reverse.dropWhile isPySpace).reverse

/-- Python `str.strip()` on a `String`. -/
def pyStripS (s : String) : String :=
  ⟨pyStrip s.data⟩

/-- Python `str.split()` with no arguments: split on runs of whitespace,
discarding empty pieces. -/
def pySplit (l : List Char) : List (List Char) :=
  (l.splitOnP isPySpace).filter (fun w => !w.isEmpty)

/-- Python `str.lower()` (ASCII case folding). -/
def lowerL (l : List Char) : List Char :=
  l.map Char.toLower

/-- Helper for `pyCount`: scan the haystack left to right; a pending skip
count larger than zero means we are inside the tail of a previous match.
After a match of a nonempty needle `sub` at the current position the scan
resumes after the match, so occurrences are counted without overlap,
exactly as Python `str.count` does. -/
def pyCountAux (sub : List Char) : Nat → List Char → Nat
  | _, [] => 0
  | 0, c :: rest =>
    if sub.isPrefixOf (c :: rest) then 1 + pyCountAux sub (sub.length - 1) rest
    else pyCountAux sub 0 rest
  | k+1, _ :: rest => pyCountAux sub k rest

/-- Python `hay.count(sub)`: number of non-overlapping occurrences of `sub`
in `hay`, scanning left to right. -/
def pyCount (hay sub : List Char) : Nat :=
  if sub.isEmpty then hay.length + 1 else pyCountAux sub 0 hay

/-!
The cleaning step of the Text Extractor (`clean_text`, src/app.py lines
176-190). With the default configuration it applies, in order,
`re.sub(pattern, "", text)` for the two patterns `\[.*?\]\(\)` and
`!\[\]\(\)`, then `re.sub(r"\s+", " ", text)`, then `str.strip`.
The regex `.` used by Python (without DOTALL) matches every character
except the newline, which the embedding reflects.
-/

/-- Scanner for the lazy tail `.*?\]\(\)` of the first cleaning regex:
given the text after a `[`, return `some n` when the match can close,
where `n` is the number of characters consumed up to and including the
first `]()` that is reachable without crossing a newline (the `.` of the
regex cannot match a newline), and `none` otherwise. -/
def rm1CloseLen : List Char → Option Nat
  | [] => none
  | c :: r =>
    if [']', '(', ')'].isPrefixOf (c :: r) then some 3
    else if c = '\n' then none
    else (rm1CloseLen r).map (· + 1)

/-- One-pass left-to-right deletion of the non-overlapping matches of
`\[.*?\]\(\)`, modelling `re.sub(r"\[.*?\]\(\)", "", text)`. A positive
first argument is the number of characters of a found match still to be
skipped. -/
def rm1Aux : Nat → List Char → List Char
  | _, [] => []
  | k+1, _ :: r => rm1Aux k r
  | 0, c :: r =>
    if c = '[' then
      match rm1CloseLen r with
      | some n => rm1Aux n r
      | none => c :: rm1Aux 0 r
    else c :: rm1Aux 0 r

/-- `re.sub(r"\[.*?\]\(\)", "", text)` on a character list. -/
def rm1 (l : List Char) : List Char :=
  rm1Aux 0 l

/-- One-pass left-to-right deletion of the occurrences of the literal
pattern `!\[\]\(\)`, modelling `re.sub(r"!\[\]\(\)", "", text)`. -/
def rm2Aux : Nat → List Char → List Char
  | _, [] => []
  | k+1, _ :: r => rm2Aux k r
  | 0, c :: r =>
    if ['!', '[', ']', '(', ')'].isPrefixOf (c :: r) then rm2Aux 4 r
    else c :: rm2Aux 0 r

/-- `re.sub(r"!\[\]\(\)", "", text)` on a character list. -/
def rm2 (l : List Char) : List Char :=
  rm2Aux 0 l

/-- `re.sub(r"\s+", " ", text)`: collapse every maximal run of whitespace
characters to a single space. -/
def collapseWS : List Char → List Char
  | [] => []
  | [c] => if isPySpace c then [' '] else [c]
  | c :: d :: r =>
    if isPySpace c then
      if isPySpace d then collapseWS (d :: r)
      else ' ' :: collapseWS (d :: r)
    else c :: collapseWS (d :: r)

/-- `clean_text` (src/app.py lines 176-190) with the default cleaning
patterns: remove `\[.*?\]\(\)` matches, remove `!\[\]\(\)` matches,
collapse whitespace runs to single spaces, and strip. -/
def clean_text (s : String) : String :=
  ⟨pyStrip (collapseWS (rm2 (rm1 s.data)))⟩

/-- Analysis predicate for the cleaning regexes: the text contains the
closing piece `]()` somewhere. -/
def closesB : List Char → Bool
  | [] => false
  | c :: r => [']', '(', ')'].isPrefixOf (c :: r) || closesB r

/-- Analysis predicate for the cleaning regexes: the text contains an
occurrence of `\[.*?\]\(\)` when the dot may match every character,
that is, a `[` followed somewhere later by `]()`. -/
def hasMatchB : List Char → Bool
  | [] => false
  | c :: r => ((c == '[') && closesB r) || hasMatchB r

/-- Whitespace-normal form of a character list: every whitespace
character is the single space and is not followed by another whitespace
character. The output of the whitespace-collapsing pass is always in
this form. -/
def wsNormB : List Char → Bool
  | [] => true
  | [c] => !isPySpace c || (c == ' ')
  | c :: d :: r => (!isPySpace c || ((c == ' ') && !isPySpace d)) && wsNormB (d :: r)

/-!
Data model. A `Page` models the per-page dictionary built by
`scrape_page`: string fields `title`, `content`, `url`, `scraped_at`, and
the `error` flag read elsewhere as `record.get("error", False)` (the key
is present, with value `True`, exactly on the error records). -/

/-- PageRecord of the data model: the dictionary produced by
`scrape_page` (src/app.py lines 238-262). -/
structure Page where
  title : String
  content : String
  url : String
  scraped_at : String
  error : Bool
deriving DecidableEq, Repr

/-- Truncation marker appended by both `scrape_page` (line 236) and
`search_relevant_content` (line 393). -/
def truncMarker : String := "... [content truncated]"

/-- Result of parsing a fetched HTML document, as consumed by
`scrape_page` and `extract_content_from_soup`: the text of the `title`
element if present, the text of the first matching content selector if
any, the text of the `body` element if present, and the full document
text. Script and style elements are already removed. -/
structure Soup where
  titleText : Option String
  selectorText : Option String
  bodyText : Option String
  fullText : String

/-- Content-region selection of `extract_content_from_soup` (src/app.py
lines 192-215) before cleaning: the first non-empty selector text, else
the body text, else the full document text. -/
def extractRaw (s : Soup) : String :=
  let ct := match s.selectorText with
    | some t => t
    | none => ""
  if ct = "" then
    match s.bodyText with
    | some b => b
    | none => s.fullText
  else ct

/-- `extract_content_from_soup`: selected region text, cleaned. -/
def extract_content_from_soup (s : Soup) : String :=
  clean_text (extractRaw s)

/-- Successful branch of `scrape_page` (src/app.py lines 217-243) on an
already fetched and parsed document: title from the `title` element
(stripped) or the fixed fallback `"Untitled"`, extracted and cleaned
content truncated at `maxLen` characters with the truncation marker, the
source URL and fetch timestamp. -/
def scrape_page (maxLen : Nat) (s : Soup) (url now : String) : Page :=
  let title_text := match s.titleText with
    | some t => pyStripS t
    | none => "Untitled"
  let content_text := extract_content_from_soup s
  let content2 := if maxLen < content_text.data.length
    then (⟨content_text.data.take maxLen⟩ : String) ++ truncMarker
    else content_text
  ⟨title_text, content2, url, now, false⟩

/-- Assignment `d[k] = v` on a Python dict modelled as an association
list in insertion order: replace the value in place if the key is
present, else append at the end. -/
def dictInsert (k : String) (v : Page) : List (String × Page) → List (String × Page)
  | [] => [(k, v)]
  | (k', v') :: rest => if k' = k then (k, v) :: rest else (k', v') :: dictInsert k v rest

/-- Filter of `scrape_all_content` (src/app.py lines 296-298): keep a
record only when it has no error, its content is non-empty, and its
content is strictly longer than the configured minimum length. -/
def keepPage (minLen : Nat) (p : Page) : Bool :=
  !p.error && !(p.content == "") && decide (minLen < p.content.data.length)

/-- Crawl loop of `scrape_all_content` (src/app.py lines 283-316) on the
cache-miss path: `fetched` is the list of discovered URLs paired with the
record `scrape_page` produced for each; records passing the filter are
inserted into the result dict in order. -/
def scrape_all_content (minLen : Nat) (fetched : List (String × Page)) : List (String × Page) :=
  fetched.foldl (fun acc up => if keepPage minLen up.2 then dictInsert up.1 up.2 acc else acc) []

/-!
Content Cache (src/app.py lines 140-174). The persisted file is modelled
by its modification time and the JSON value its bytes hold; file bytes
that cannot be read or parsed as JSON are modelled as `none`, matching
the `except` branch that turns any read or parse failure into a cache
miss. -/

/-- JSON values, the persistence format of the content cache. -/
inductive Json where
  | null : Json
  | bool : Bool → Json
  | str : String → Json
  | arr : List Json → Json
  | obj : List (String × Json) → Json

/-- Persisted cache file: modification time and the JSON value held by
the file bytes (`none` when the bytes are unreadable or not valid
JSON). -/
structure CacheFile where
  mtime : ℚ
  data : Option Json

/-- Field lookup in a JSON object. -/
def jLookup (k : String) : List (String × Json) → Option Json
  | [] => none
  | (k', v) :: rest => if k' = k then some v else jLookup k rest

/-- JSON encoding of a page record as written by `json.dump`: the four
string fields, plus the `error` key exactly when the flag is set. -/
def encodePage (p : Page) : Json :=
  Json.obj ([("title", Json.str p.title), ("content", Json.str p.content),
    ("url", Json.str p.url), ("scraped_at", Json.str p.scraped_at)] ++
    (if p.error then [("error", Json.bool true)] else []))

/-- JSON decoding of a page record: the four string fields must be
present as strings; `error` defaults to false, as in
`record.get("error", False)`. -/
def decodePage : Json → Option Page
  | Json.obj fs =>
    match jLookup "title" fs, jLookup "content" fs, jLookup "url" fs,
        jLookup "scraped_at" fs with
    | some (Json.str t), some (Json.str c), some (Json.str u), some (Json.str sa) =>
      some ⟨t, c, u, sa,
        match jLookup "error" fs with
        | some (Json.bool b) => b
        | _ => false⟩
    | _, _, _, _ => none
  | _ => none

/-- JSON encoding of a ContentSet (URL-to-record mapping in iteration
order), as written by `save_content_to_cache`. -/
def encodeContent (content : List (String × Page)) : Json :=
  Json.obj (content.map (fun up => (up.1, encodePage up.2)))

/-- Interpretation of a cached JSON value as a ContentSet. -/
def decodeContent : Json → Option (List (String × Page))
  | Json.obj fs => fs.mapM (fun kv => (decodePage kv.2).map (fun p => (kv.1, p)))
  | _ => none

/-- `load_cached_content` (src/app.py lines 142-162): absent when caching
is disabled, when no file exists, when the file age is not below the
configured expiry, or when the bytes cannot be read or parsed as JSON;
otherwise the parsed JSON value. Every failure path returns `none`
rather than raising, matching the `except` clause. -/
def load_cached_content (enabled : Bool) (expiry now : ℚ) (st : Option CacheFile) : Option Json :=
  if !enabled then none
  else
    match st with
    | none => none
    | some f => if now - f.mtime < expiry then f.data else none

/-- `save_content_to_cache` (src/app.py lines 164-174): when caching is
enabled, overwrite the cache file wholesale with the JSON encoding of the
content, stamped with the write time; otherwise leave the state
unchanged. -/
def save_content_to_cache (enabled : Bool) (now : ℚ) (content : List (String × Page))
    (st : Option CacheFile) : Option CacheFile :=
  if enabled then some ⟨now, some (encodeContent content)⟩ else st

/-!
Relevance Scorer (`calculate_relevance_score`, src/app.py lines 330-357).
Integer counts and weights are cast to rationals; the final Python float
division is modelled by rational division. -/

/-- `calculate_relevance_score`: tokenize the lower-cased query on
whitespace, discard tokens shorter than `minWordLength`, return 0 when no
token survives, else accumulate `titleWeight` times the occurrence count
of the token in the lower-cased title plus `contentWeight` times its
occurrence count in the lower-cased content, and divide by the number of
surviving tokens. -/
def calculate_relevance_score (minWordLength : Nat) (titleWeight contentWeight : ℚ)
    (query : String) (c : Page) : ℚ :=
  let query_lower := lowerL query.data
  let content_lower := lowerL c.content.data
  let title_lower := lowerL c.title.data
  let query_words := (pySplit query_lower).filter (fun w => decide (minWordLength ≤ w.length))
  if query_words.isEmpty then 0
  else
    let score := query_words.foldl
      (fun acc word =>
        (acc + (pyCount title_lower word : ℚ) * titleWeight)
          + (pyCount content_lower word : ℚ) * contentWeight) 0
    score / (query_words.length : ℚ)

/-!
Context Assembler (`search_relevant_content`, src/app.py lines 359-398).
The ContentSet is the in-memory mapping `content_database`, modelled as an
association list in iteration order. Python `list.sort(key=..., reverse=True)`
is a stable descending sort on the score component; it is embedded as a
stable insertion sort, which computes the same list. -/

/-- Stable descending insertion on the score component: the new element
goes before the first element whose score is not larger, so among equal
scores earlier input elements stay first. -/
def insertDesc (x : ℚ × String × Page) : List (ℚ × String × Page) → List (ℚ × String × Page)
  | [] => [x]
  | y :: ys => if x.1 < y.1 then y :: insertDesc x ys else x :: y :: ys

/-- Stable descending sort by score, modelling
`scored_content.sort(key=lambda x: x[0], reverse=True)`. -/
def sortDesc (l : List (ℚ × String × Page)) : List (ℚ × String × Page) :=
  l.foldr insertDesc []

/-- Scoring loop of `search_relevant_content` (lines 364-369): score each
record of the database in iteration order and keep the positive ones as
`(score, url, record)` triples. -/
def scoredContent (minWordLength : Nat) (titleWeight contentWeight : ℚ) (query : String)
    (db : List (String × Page)) : List (ℚ × String × Page) :=
  db.foldl
    (fun acc up =>
      let s := calculate_relevance_score minWordLength titleWeight contentWeight query up.2
      if 0 < s then acc ++ [(s, up.1, up.2)] else acc) []

/-- Top slice taken at line 376: the scored records, sorted, cut to
`maxResults`. -/
def topContent (minWordLength : Nat) (titleWeight contentWeight : ℚ) (maxResults : Nat)
    (query : String) (db : List (String × Page)) : List (ℚ × String × Page) :=
  (sortDesc (scoredContent minWordLength titleWeight contentWeight query db)).take maxResults

/-- Per-source truncation at lines 391-393: content longer than
`maxSrc` characters is cut to `maxSrc` characters and the truncation
marker is appended. -/
def truncateContent (maxSrc : Nat) (s : String) : String :=
  if maxSrc < s.data.length then (⟨s.data.take maxSrc⟩ : String) ++ truncMarker else s

/-- Two-decimal rendering of a score, modelling the `f"{score:.2f}"`
formatting of line 388 (rounding of the exact rational; no claim depends
on the rounding mode). -/
def fmtScore (q : ℚ) : String :=
  let c : Int := round (q * 100)
  let f := (c % 100).toNat
  toString (c / 100) ++ "." ++ (if f < 10 then "0" ++ toString f else toString f)

/-- One labeled context block (lines 385-396): source title, URL, score,
and truncated content. -/
def renderBlock (maxSrc : Nat) (x : ℚ × String × Page) : String :=
  "\n--- Source: " ++ x.2.2.title ++ " ---" ++ "\nURL: " ++ x.2.1
    ++ "\nRelevance Score: " ++ fmtScore x.1 ++ "\nContent:\n"
    ++ truncateContent maxSrc x.2.2.content ++ "\n"

/-- `search_relevant_content` (src/app.py lines 359-398): empty string on
an empty database or when no record scores above zero, else the rendered
blocks of the top records joined with newlines. -/
def search_relevant_content (minWordLength : Nat) (titleWeight contentWeight : ℚ)
    (maxResults maxSrc : Nat) (query : String) (db : List (String × Page)) : String :=
  if db.isEmpty then ""
  else
    let top := topContent minWordLength titleWeight contentWeight maxResults query db
    if top.isEmpty then ""
    else String.intercalate "\n" (top.map (renderBlock maxSrc))

/-!
Question-answering entry point (`answer_question`, src/app.py lines
448-468). The external answering collaborator (`generate_response`,
which wraps the model API call and its own error handling) is modelled as
an opaque function from question and context to answer text. -/

/-- Team contact address from the `CONTACT` configuration. -/
def teamEmail : String := "bhfdsc_hds@hdruk.ac.uk"

/-- Fixed reply to an empty or whitespace-only question (line 451). -/
def promptMsg : String :=
  "Please provide a question about the BHF Data Science Centre documentation."

/-- Advisory message text before the contact address (lines 457-465). -/
def advisoryPre : String :=
  "I couldn't find relevant information in the BHF Data Science Centre documentation to answer your question. \n\nThis system can help with questions about:\n- CVD-COVID-UK and COVID-IMPACT research programmes\n- Available datasets and data access procedures\n- Research tools and resources\n- Team information and contacts\n\nFor specific questions about research or data access, please contact the team directly at "

/-- Advisory message text after the contact address. -/
def advisoryPost : String := "."

/-- Advisory "insufficient information" message returned when the
assembled context is empty. -/
def advisoryMsg : String := advisoryPre ++ teamEmail ++ advisoryPost

/-- `answer_question` (src/app.py lines 448-468): prompt for a question
when the question is blank; otherwise assemble the context and either
return the advisory message (blank context) or hand question and context
to the answering collaborator. -/
def answer_question (collab : String → String → String) (minWordLength : Nat)
    (titleWeight contentWeight : ℚ) (maxResults maxSrc : Nat)
    (db : List (String × Page)) (question : String) : String :=
  if pyStripS question = "" then promptMsg
  else
    let context := search_relevant_content minWordLength titleWeight contentWeight
      maxResults maxSrc question db
    if pyStripS context = "" then advisoryMsg
    else collab question context

/-!
Default configuration values of the fallback configuration dictionaries
(src/app.py lines 21-34). -/

/-- Default `min_content_length` (SCRAPING). -/
def defaultMinContentLength : Nat := 100

/-- Default `max_content_length` (SCRAPING). -/
def defaultMaxContentLength : Nat := 10000

/-- Default `min_word_length` (SEARCH). -/
def defaultMinWordLength : Nat := 3

/-- Default `title_weight` (SEARCH). -/
def defaultTitleWeight : ℚ := 3

/-- Default `content_weight` (SEARCH). -/
def defaultContentWeight : ℚ := 1

/-- Default `max_results` (SEARCH). -/
def defaultMaxResults : Nat := 3

/-- Default `max_source_length` (ANTHROPIC, absent from the fallback
dictionary, so the `.get` default applies). -/
def defaultMaxSourceLength : Nat := 2000

/-- Default `cache_expiry` in seconds (CACHE). -/
def defaultCacheExpiry : ℚ := 3600

/-!
Spec-side definitions, written from the specification text, for
comparison against the code-side definitions above. -/

/-- Last path segment of a URL, as named by the specification sentence
"a fallback derived from the URL's last path segment": the last non-empty
piece of the URL split on `/`. -/
def lastPathSegment (url : String) : String :=
  ⟨((url.data.splitOnP (fun c => c == '/')).filter (fun w => !w.isEmpty)).getLastD []⟩

/-- Relevance score as the specification words it: the sum over surviving
query tokens of `titleWeight` times the occurrence count of the token in
the lower-cased title plus `contentWeight` times its occurrence count in
the lower-cased content, divided by the number of surviving tokens, and 0
when no token survives. -/
def specRelevanceScore (minWordLength : Nat) (titleWeight contentWeight : ℚ)
    (query : String) (c : Page) : ℚ :=
  let tokens := (pySplit (lowerL query.data)).filter (fun w => decide (minWordLength ≤ w.length))
  if tokens.isEmpty then 0
  else
    ((tokens.map (fun w =>
        titleWeight * (pyCount (lowerL c.title.data) w : ℚ)
          + contentWeight * (pyCount (lowerL c.content.data) w : ℚ))).sum)
      / (tokens.length : ℚ)

/-- Candidate selection of a single record, as the specification words
it: a record yields a scored candidate exactly when its score is
positive. -/
def scoredOf (minWordLength : Nat) (titleWeight contentWeight : ℚ) (query : String)
    (up : String × Page) : Option (ℚ × String × Page) :=
  let s := calculate_relevance_score minWordLength titleWeight contentWeight query up.2
  if 0 < s then some (s, up.1, up.2) else none

/-!
Claim C1. The code-side fallback title is the fixed string `"Untitled"`
(src/app.py line 228), not a value derived from the last path segment of
the URL. -/

/-- C1 counterexample: for a document without a title element fetched
from a URL whose last path segment is `datasets` (or `team`), the
produced title is the constant `"Untitled"`, which neither equals nor
contains the last path segment, and does not change when the URL
changes. -/
theorem c1_counterexample :
    (scrape_page 10000 ⟨none, some "body text", none, ""⟩
      "https://bhfdsc.github.io/documentation/datasets" "t").title = "Untitled"
    ∧ (scrape_page 10000 ⟨none, some "body text", none, ""⟩
      "https://bhfdsc.github.io/documentation/team" "t").title = "Untitled"
    ∧ lastPathSegment "https://bhfdsc.github.io/documentation/datasets" = "datasets"
    ∧ lastPathSegment "https://bhfdsc.github.io/documentation/team" = "team"
    ∧ ¬ ("datasets".data <:+: "Untitled".data)
    ∧ ¬ ("team".data <:+: "Untitled".data) := by
  refine ⟨rfl, rfl, by decide, by decide, by decide, by decide⟩

/-- C1 (amended): when the title element is present the produced title is
that element's text stripped of surrounding whitespace; when it is absent
the title is the fixed fallback string `"Untitled"`; in both cases the
title does not depend on the page URL. -/
theorem c1_title_of_scrape_page (maxLen : Nat) (s : Soup) (url url2 now : String) :
    (scrape_page maxLen s url now).title
      = (match s.titleText with
          | some t => pyStripS t
          | none => "Untitled")
    ∧ (scrape_page maxLen s url now).title = (scrape_page maxLen s url2 now).title :=
  ⟨rfl, rfl⟩

/-!
Claim C2. The filter of `scrape_all_content` keeps a record only when its
content is strictly longer than the configured minimum
(`len(content) > min_content_length`, line 298); a record whose content
length equals the minimum is discarded, contradicting the claim's
"not shorter than" condition. -/

/-- C2 counterexample: with the configured minimum length 2, an
error-free record whose content `"ab"` has length exactly 2 satisfies the
claim's condition for entering the ContentSet (content not shorter than
the minimum), yet `scrape_all_content` discards it. -/
theorem c2_counterexample :
    (⟨"T", "ab", "u", "t", false⟩ : Page).error = false
    ∧ 2 ≤ (⟨"T", "ab", "u", "t", false⟩ : Page).content.data.length
    ∧ scrape_all_content 2 [("u", ⟨"T", "ab", "u", "t", false⟩)] = [] := by
  refine ⟨rfl, by decide, by decide⟩

/-- Helper: inserting a fresh key into the dict appends at the end. -/
theorem dictInsert_eq_append (k : String) (v : Page) :
    ∀ (acc : List (String × Page)), k ∉ acc.map Prod.fst →
      dictInsert k v acc = acc ++ [(k, v)] := by
  intro acc
  induction acc with
  | nil => intro _; rfl
  | cons kv rest ih =>
    intro h
    obtain ⟨k', v'⟩ := kv
    simp only [List.map_cons, List.mem_cons] at h
    push_neg at h
    show (if k' = k then (k, v) :: rest else (k', v') :: dictInsert k v rest) = _
    rw [if_neg (Ne.symm h.1), ih h.2]
    rfl

set_option maxRecDepth 8000 in
/-- Helper: with pairwise distinct URLs the crawl loop of
`scrape_all_content` accumulates exactly the records passing the filter,
in order. -/
theorem scrape_all_loop (minLen : Nat) :
    ∀ (fetched acc : List (String × Page)),
      (acc.map Prod.fst ++ fetched.map Prod.fst).Nodup →
      fetched.foldl
          (fun acc up => if keepPage minLen up.2 then dictInsert up.1 up.2 acc else acc) acc
        = acc ++ fetched.filter (fun up => keepPage minLen up.2) := by
  intro fetched
  induction fetched with
  | nil =>
    intro acc _
    exact (List.append_nil acc).symm
  | cons up rest ih =>
    intro acc h
    obtain ⟨u, p⟩ := up
    simp only [List.map_cons] at h
    show List.foldl _ (if keepPage minLen p then dictInsert u p acc else acc) rest = _
    rcases hk : keepPage minLen p with - | -
    · rw [if_neg Bool.false_ne_true]
      have h2 : (acc.map Prod.fst ++ rest.map Prod.fst).Nodup := by
        refine List.Nodup.sublist ?_ h
        exact ((List.sublist_cons_self u (rest.map Prod.fst)).append_left _)
      rw [ih acc h2]
      have hfc : List.filter (fun up => keepPage minLen up.2) ((u, p) :: rest)
          = List.filter (fun up => keepPage minLen up.2) rest :=
        List.filter_cons_of_neg (fun hc => Bool.false_ne_true (hk.symm.trans hc))
      rw [hfc]
    · have hu : u ∉ acc.map Prod.fst := by
        rcases List.nodup_append.mp h with ⟨-, -, hdisj⟩
        intro hmem
        exact hdisj hmem (List.mem_cons_self u _)
      rw [if_pos rfl, dictInsert_eq_append u p acc hu]
      have h2 : ((acc ++ [(u, p)]).map Prod.fst ++ rest.map Prod.fst).Nodup := by
        rw [List.map_append, List.append_assoc]
        exact h
      have hfc : List.filter (fun up => keepPage minLen up.2) ((u, p) :: rest)
          = (u, p) :: List.filter (fun up => keepPage minLen up.2) rest :=
        List.filter_cons_of_pos hk
      rw [ih (acc ++ [(u, p)]) h2, hfc, List.append_assoc]
      rfl

/-- C2 (amended): for crawled pages with pairwise distinct URLs, a record
enters the ContentSet produced by `scrape_all_content` if and only if it
has no error and its content is strictly longer than the configured
minimum length; records with an error, or whose content length is less
than or equal to the minimum, are discarded. -/
theorem c2_contentset_filter (minLen : Nat) (fetched : List (String × Page))
    (h : (fetched.map Prod.fst).Nodup) (u : String) (p : Page) :
    (u, p) ∈ scrape_all_content minLen fetched
      ↔ (u, p) ∈ fetched ∧ p.error = false ∧ minLen < p.content.data.length := by
  have hfold := scrape_all_loop minLen fetched [] (by simpa using h)
  unfold scrape_all_content
  rw [hfold, List.nil_append, List.mem_filter]
  constructor
  · rintro ⟨hmem, hkeep⟩
    simp only [keepPage, Bool.and_eq_true, Bool.not_eq_true', beq_eq_false_iff_ne,
      decide_eq_true_eq] at hkeep
    exact ⟨hmem, hkeep.1.1, hkeep.2⟩
  · rintro ⟨hmem, herr, hlen⟩
    refine ⟨hmem, ?_⟩
    have hne : p.content ≠ "" := by
      intro hc
      rw [hc] at hlen
      simp at hlen
    simp only [keepPage, Bool.and_eq_true, Bool.not_eq_true', beq_eq_false_iff_ne,
      decide_eq_true_eq]
    exact ⟨⟨herr, hne⟩, hlen⟩

/-- C2 witness: a concrete error-free record of content length 3 with
minimum length 2 enters the ContentSet. -/
theorem c2_contentset_filter_witness :
    (([("u", (⟨"T", "abc", "u", "t", false⟩ : Page))].map Prod.fst).Nodup)
    ∧ ("u", (⟨"T", "abc", "u", "t", false⟩ : Page))
        ∈ scrape_all_content 2 [("u", ⟨"T", "abc", "u", "t", false⟩)] :=
  ⟨by decide,
    (c2_contentset_filter 2 [("u", ⟨"T", "abc", "u", "t", false⟩)] (by decide) "u"
      ⟨"T", "abc", "u", "t", false⟩).mpr ⟨by decide, rfl, by decide⟩⟩

/-!
Claim C6. Per-source truncation in the context assembly
(src/app.py lines 391-393). -/

/-- C6: a kept record whose content is longer than `maxSrc` characters is
rendered with its content cut to exactly `maxSrc` characters followed by
the truncation marker; a record whose content is at most `maxSrc`
characters long is rendered with its content unchanged (no marker is
appended). The truncated content is what appears in the rendered context
block. -/
theorem c6_truncation (maxSrc : Nat) (s : String) :
    (maxSrc < s.data.length →
      truncateContent maxSrc s = (⟨s.data.take maxSrc⟩ : String) ++ truncMarker
      ∧ ((⟨s.data.take maxSrc⟩ : String)).data.length = maxSrc
      ∧ (truncateContent maxSrc s).data.length = maxSrc + truncMarker.data.length)
    ∧ (s.data.length ≤ maxSrc → truncateContent maxSrc s = s)
    ∧ ∀ (sc : ℚ) (u : String) (p : Page),
        (truncateContent maxSrc p.content).data <:+: (renderBlock maxSrc (sc, u, p)).data := by
  refine ⟨?_, ?_, ?_⟩
  · intro h
    have htr : truncateContent maxSrc s = (⟨s.data.take maxSrc⟩ : String) ++ truncMarker := by
      unfold truncateContent
      rw [if_pos h]
    have hlen : ((⟨s.data.take maxSrc⟩ : String)).data.length = maxSrc := by
      show (s.data.take maxSrc).length = maxSrc
      rw [List.length_take]
      omega
    refine ⟨htr, hlen, ?_⟩
    rw [htr, String.data_append, List.length_append, hlen]
  · intro h
    unfold truncateContent
    rw [if_neg (by omega)]
  · intro sc u p
    refine ⟨("\n--- Source: " ++ p.title ++ " ---" ++ "\nURL: " ++ u
      ++ "\nRelevance Score: " ++ fmtScore sc ++ "\nContent:\n").data, ("\n" : String).data, ?_⟩
    simp [renderBlock, String.data_append]

/-- C6 witness: with limit 3, the six-character content `"abcdef"` is cut
to `"abc"` plus the marker; with limit 7, the three-character content
`"abc"` is rendered unchanged. -/
theorem c6_truncation_witness :
    ((3 : Nat) < ("abcdef" : String).data.length
      ∧ truncateContent 3 "abcdef" = (⟨("abcdef" : String).data.take 3⟩ : String) ++ truncMarker)
    ∧ (("abc" : String).data.length ≤ 7 ∧ truncateContent 7 "abc" = "abc") :=
  ⟨⟨by decide, ((c6_truncation 3 "abcdef").1 (by decide)).1⟩,
    ⟨by decide, (c6_truncation 7 "abc").2.1 (by decide)⟩⟩

/-!
Claim C8. Absence conditions of `load_cached_content`
(src/app.py lines 142-162). "Unreadable or malformed" persisted data is
modelled as a cache file holding no JSON value (the `json.load` or file
read raising, which the `except` clause turns into a miss). -/

/-- C8: the cache load returns absent when no persisted entry exists;
when the entry's age reaches or exceeds the expiry; and when the
persisted bytes are unreadable or malformed (in which case no error is
raised, whatever the age). For an entry written at time `T` holding a
well-formed value, the load returns the value at `T + TTL - eps` for any
positive `eps`, and absent at `T + TTL + eps` for any non-negative
`eps`. -/
theorem c8_load_absence (expiry : ℚ) :
    (∀ now : ℚ, load_cached_content true expiry now none = none)
    ∧ (∀ (now T : ℚ) (d : Option Json), expiry ≤ now - T →
        load_cached_content true expiry now (some ⟨T, d⟩) = none)
    ∧ (∀ (now T : ℚ), load_cached_content true expiry now (some ⟨T, none⟩) = none)
    ∧ (∀ (T eps : ℚ) (j : Json), 0 < eps →
        load_cached_content true expiry (T + expiry - eps) (some ⟨T, some j⟩) = some j)
    ∧ (∀ (T eps : ℚ) (d : Option Json), 0 ≤ eps →
        load_cached_content true expiry (T + expiry + eps) (some ⟨T, d⟩) = none) := by
  refine ⟨fun now => rfl, ?_, ?_, ?_, ?_⟩
  · intro now T d h
    show (if now - T < expiry then d else none) = none
    rw [if_neg (by linarith)]
  · intro now T
    show (if now - T < expiry then none else none) = (none : Option Json)
    exact ite_self none
  · intro T eps j h
    show (if T + expiry - eps - T < expiry then some j else none) = some j
    rw [if_pos (by linarith)]
  · intro T eps d h
    show (if T + expiry + eps - T < expiry then d else none) = none
    rw [if_neg (by linarith)]

/-- C8 witness: with the default one-hour expiry, an entry written at
time 0 is present at 3599 seconds, absent at 3601 seconds, absent when
malformed, and the load of a missing file is absent. -/
theorem c8_load_absence_witness :
    ((3600 : ℚ) ≤ 7200 - 0
      ∧ load_cached_content true 3600 7200 (some ⟨0, some Json.null⟩) = none)
    ∧ ((0 : ℚ) < 1
      ∧ load_cached_content true 3600 (0 + 3600 - 1) (some ⟨0, some Json.null⟩)
          = some Json.null)
    ∧ ((0 : ℚ) ≤ 1
      ∧ load_cached_content true 3600 (0 + 3600 + 1) (some ⟨0, some Json.null⟩) = none)
    ∧ load_cached_content true 3600 100 (some ⟨0, none⟩) = none
    ∧ load_cached_content true 3600 0 none = none :=
  ⟨⟨by norm_num, (c8_load_absence 3600).2.1 7200 0 (some Json.null) (by norm_num)⟩,
    ⟨by norm_num, (c8_load_absence 3600).2.2.2.1 0 1 Json.null (by norm_num)⟩,
    ⟨by norm_num, (c8_load_absence 3600).2.2.2.2 0 1 (some Json.null) (by norm_num)⟩,
    (c8_load_absence 3600).2.2.1 100 0,
    (c8_load_absence 3600).1 0⟩

/-!
Claim C9. Round-trip of the cache persistence format. -/

/-- Helper: decoding the encoding of a page record restores all its
fields. -/
theorem decodePage_encodePage (p : Page) : decodePage (encodePage p) = some p := by
  obtain ⟨t, c, u, sa, e⟩ := p
  cases e <;> simp [encodePage, decodePage, jLookup]

/-- Helper: decoding the encoding of a ContentSet restores every record
and the iteration order. -/
theorem decodeContent_encodeContent (X : List (String × Page)) :
    decodeContent (encodeContent X) = some X := by
  induction X with
  | nil => rfl
  | cons up rest ih =>
    simp only [encodeContent, List.map_cons, decodeContent, List.mapM_cons,
      decodePage_encodePage, Option.map_some, Option.bind_eq_bind,
      Option.some_bind]
    simp only [encodeContent, decodeContent] at ih
    rw [ih]
    rfl

/-- C9: saving a ContentSet and loading it back within the TTL yields the
persisted JSON value of the saved content, and that value decodes to a
ContentSet equal to the saved one in every record field. -/
theorem c9_cache_roundtrip (expiry T now : ℚ) (st : Option CacheFile)
    (X : List (String × Page)) (h : now - T < expiry) :
    load_cached_content true expiry now (save_content_to_cache true T X st)
      = some (encodeContent X)
    ∧ decodeContent (encodeContent X) = some X := by
  constructor
  · show (if now - T < expiry then some (encodeContent X) else none) = some (encodeContent X)
    rw [if_pos h]
  · exact decodeContent_encodeContent X

/-- C9 witness: a one-page ContentSet saved at time 0 and loaded at time
10 with the default expiry round-trips. -/
theorem c9_cache_roundtrip_witness :
    (10 : ℚ) - 0 < 3600
    ∧ (load_cached_content true 3600 10
        (save_content_to_cache true 0 [("u", ⟨"T", "abc", "u", "t", false⟩)] none)
        = some (encodeContent [("u", ⟨"T", "abc", "u", "t", false⟩)])
      ∧ decodeContent (encodeContent [("u", ⟨"T", "abc", "u", "t", false⟩)])
          = some [("u", ⟨"T", "abc", "u", "t", false⟩)]) :=
  ⟨by norm_num,
    c9_cache_roundtrip 3600 0 10 none [("u", ⟨"T", "abc", "u", "t", false⟩)] (by norm_num)⟩

/-!
Claim C10. Blank questions short-circuit `answer_question`
(src/app.py lines 450-451). -/

/-- Helper: stripping a string made of whitespace only yields the empty
string. -/
theorem pyStripS_eq_empty_of_all_space (q : String) (h : q.data.all isPySpace = true) :
    pyStripS q = "" := by
  have h1 : q.data.dropWhile isPySpace = [] :=
    List.dropWhile_eq_nil_iff.mpr (List.all_eq_true.mp h)
  unfold pyStripS pyStrip
  rw [h1]
  rfl

/-- C10: a question that is empty or consists only of whitespace is
answered with the fixed prompt message, whatever the content database and
whatever the answering collaborator (in particular the collaborator is
never consulted and no record is scored). -/
theorem c10_blank_question (collab : String → String → String) (mwl : Nat)
    (tw cw : ℚ) (mr ms : Nat) (db : List (String × Page)) (q : String)
    (h : q.data.all isPySpace = true) :
    answer_question collab mwl tw cw mr ms db q = promptMsg := by
  unfold answer_question
  rw [if_pos (pyStripS_eq_empty_of_all_space q h)]

/-- C10 witness: the one-space question on a non-empty database yields
the prompt message. -/
theorem c10_blank_question_witness :
    (" " : String).data.all isPySpace = true
    ∧ answer_question (fun _ _ => "llm answer") 3 3 1 3 2000
        [("u", ⟨"T", "abc", "u", "t", false⟩)] " " = promptMsg :=
  ⟨by decide,
    c10_blank_question (fun _ _ => "llm answer") 3 3 1 3 2000
      [("u", ⟨"T", "abc", "u", "t", false⟩)] " " (by decide)⟩

/-!
Claim C4. The scorer computes the specification formula. -/

/-- Helper: the accumulation loop of `calculate_relevance_score` computes
the sum of the per-token weighted counts. -/
theorem score_foldl_eq (t c : List Char) (tw cw : ℚ) :
    ∀ (l : List (List Char)) (a : ℚ),
      l.foldl (fun acc word =>
          (acc + (pyCount t word : ℚ) * tw) + (pyCount c word : ℚ) * cw) a
        = a + (l.map (fun w => tw * (pyCount t w : ℚ) + cw * (pyCount c w : ℚ))).sum := by
  intro l
  induction l with
  | nil => intro a; simp
  | cons w ws ih =>
    intro a
    rw [List.foldl_cons, ih, List.map_cons, List.sum_cons]
    ring

/-- C4: for every query and record, `calculate_relevance_score` equals
the specification formula: the sum over the surviving query tokens
(whitespace-split, lower-cased, tokens shorter than the configured
minimum discarded) of `titleWeight` times the occurrence count of the
token in the lower-cased title plus `contentWeight` times its occurrence
count in the lower-cased content, divided by the number of surviving
tokens; and 0 when no token survives. -/
theorem c4_relevance_score_spec (mwl : Nat) (tw cw : ℚ) (q : String) (c : Page) :
    calculate_relevance_score mwl tw cw q c = specRelevanceScore mwl tw cw q c := by
  simp only [calculate_relevance_score, specRelevanceScore]
  by_cases h : ((pySplit (lowerL q.data)).filter (fun w => decide (mwl ≤ w.length))).isEmpty = true
  · rw [if_pos h, if_pos h]
  · rw [if_neg h, if_neg h, score_foldl_eq, zero_add]

/-!
Claim C5. The context assembler keeps exactly the positive-score records,
sorts them descending by score with the stable tie-break, and takes at
most `maxResults` of them into the rendered context. -/

/-- Helper: the scoring loop of `search_relevant_content` collects
exactly the records with positive score, in database order. -/
theorem scoredContent_loop (mwl : Nat) (tw cw : ℚ) (q : String) :
    ∀ (l : List (String × Page)) (acc : List (ℚ × String × Page)),
      l.foldl
          (fun acc up =>
            let s := calculate_relevance_score mwl tw cw q up.2
            if 0 < s then acc ++ [(s, up.1, up.2)] else acc) acc
        = acc ++ l.filterMap (scoredOf mwl tw cw q) := by
  intro l
  induction l with
  | nil =>
    intro acc
    exact (List.append_nil acc).symm
  | cons up rest ih =>
    intro acc
    obtain ⟨u, p⟩ := up
    show List.foldl _
        (if 0 < calculate_relevance_score mwl tw cw q p
          then acc ++ [(calculate_relevance_score mwl tw cw q p, u, p)] else acc) rest = _
    by_cases hs : 0 < calculate_relevance_score mwl tw cw q p
    · rw [if_pos hs, ih (acc ++ [(calculate_relevance_score mwl tw cw q p, u, p)])]
      have h1 : List.filterMap (scoredOf mwl tw cw q) ((u, p) :: rest)
          = (calculate_relevance_score mwl tw cw q p, u, p)
              :: List.filterMap (scoredOf mwl tw cw q) rest := by
        rw [List.filterMap_cons]
        have h2 : scoredOf mwl tw cw q (u, p)
            = some (calculate_relevance_score mwl tw cw q p, u, p) := if_pos hs
        rw [h2]
      rw [h1, List.append_assoc]
      rfl
    · rw [if_neg hs, ih acc]
      have h1 : List.filterMap (scoredOf mwl tw cw q) ((u, p) :: rest)
          = List.filterMap (scoredOf mwl tw cw q) rest := by
        rw [List.filterMap_cons]
        have h2 : scoredOf mwl tw cw q (u, p) = none := if_neg hs
        rw [h2]
      rw [h1]

/-- Helper: the scoring loop equals a filterMap over the database. -/
theorem scoredContent_eq_filterMap (mwl : Nat) (tw cw : ℚ) (q : String)
    (db : List (String × Page)) :
    scoredContent mwl tw cw q db = db.filterMap (scoredOf mwl tw cw q) :=
  scoredContent_loop mwl tw cw q db []

/-- Helper: inserting into a list places the element after exactly the
strictly larger scores. -/
theorem insertDesc_split (x : ℚ × String × Page) :
    ∀ l : List (ℚ × String × Page), ∃ A B, insertDesc x l = A ++ x :: B ∧ l = A ++ B
      ∧ ∀ y ∈ A, x.1 < y.1 := by
  intro l
  induction l with
  | nil => exact ⟨[], [], rfl, rfl, by simp⟩
  | cons y ys ih =>
    by_cases h : x.1 < y.1
    · obtain ⟨A, B, h1, h2, h3⟩ := ih
      refine ⟨y :: A, B, ?_, ?_, ?_⟩
      · show (if x.1 < y.1 then y :: insertDesc x ys else x :: y :: ys) = (y :: A) ++ x :: B
        rw [if_pos h, h1]
        rfl
      · rw [h2]
        rfl
      · intro z hz
        rcases List.mem_cons.mp hz with rfl | hz2
        · exact h
        · exact h3 z hz2
    · refine ⟨[], y :: ys, ?_, rfl, by simp⟩
      show (if x.1 < y.1 then y :: insertDesc x ys else x :: y :: ys) = [] ++ x :: y :: ys
      rw [if_neg h]
      rfl

/-- Helper: insertion is a permutation of consing. -/
theorem insertDesc_perm (x : ℚ × String × Page) (l : List (ℚ × String × Page)) :
    (insertDesc x l).Perm (x :: l) := by
  obtain ⟨A, B, h1, h2, -⟩ := insertDesc_split x l
  rw [h1, h2]
  exact List.perm_middle

/-- Helper: the stable sort is a permutation of its input. -/
theorem sortDesc_perm (l : List (ℚ × String × Page)) : (sortDesc l).Perm l := by
  induction l with
  | nil => exact List.Perm.refl []
  | cons x xs ih =>
    show (insertDesc x (sortDesc xs)).Perm (x :: xs)
    exact (insertDesc_perm x (sortDesc xs)).trans (List.Perm.cons x ih)

/-- Helper: insertion preserves the descending order. -/
theorem insertDesc_sorted (x : ℚ × String × Page) (l : List (ℚ × String × Page))
    (h : l.Pairwise (fun a b => b.1 ≤ a.1)) :
    (insertDesc x l).Pairwise (fun a b => b.1 ≤ a.1) := by
  induction l with
  | nil => simp [insertDesc]
  | cons y ys ih =>
    rw [List.pairwise_cons] at h
    show (if x.1 < y.1 then y :: insertDesc x ys else x :: y :: ys).Pairwise _
    by_cases hlt : x.1 < y.1
    · rw [if_pos hlt, List.pairwise_cons]
      constructor
      · intro z hz
        have hz2 : z ∈ x :: ys := ((insertDesc_perm x ys).mem_iff).mp hz
        rcases List.mem_cons.mp hz2 with rfl | hz3
        · exact le_of_lt hlt
        · exact h.1 z hz3
      · exact ih h.2
    · rw [if_neg hlt, List.pairwise_cons]
      refine ⟨?_, List.pairwise_cons.mpr h⟩
      intro z hz
      rcases List.mem_cons.mp hz with rfl | hz2
      · exact not_lt.mp hlt
      · exact le_trans (h.1 z hz2) (not_lt.mp hlt)

/-- Helper: the stable sort is descending in the score component. -/
theorem sortDesc_sorted (l : List (ℚ × String × Page)) :
    (sortDesc l).Pairwise (fun a b => b.1 ≤ a.1) := by
  induction l with
  | nil => simp [sortDesc]
  | cons x xs ih => exact insertDesc_sorted x (sortDesc xs) ih

/-- Helper: insertion keeps the existing relative order of any fixed
score value. -/
theorem insertDesc_filter_fiber (x : ℚ × String × Page) (l : List (ℚ × String × Page))
    (s : ℚ) :
    (insertDesc x l).filter (fun z => decide (z.1 = s))
      = if x.1 = s then x :: l.filter (fun z => decide (z.1 = s))
        else l.filter (fun z => decide (z.1 = s)) := by
  obtain ⟨A, B, h1, h2, h3⟩ := insertDesc_split x l
  rw [h1, h2, List.filter_append, List.filter_append]
  by_cases hx : x.1 = s
  · rw [if_pos hx]
    have hA : A.filter (fun z => decide (z.1 = s)) = [] := by
      rw [List.filter_eq_nil_iff]
      intro a ha
      simp only [decide_eq_true_eq]
      intro heq
      have hlt := h3 a ha
      rw [heq, hx] at hlt
      exact lt_irrefl s hlt
    rw [hA]
    simp [List.filter_cons, hx]
  · rw [if_neg hx]
    simp [List.filter_cons, hx]

/-- Helper: the stable sort keeps, for every score value, the records of
that score in their original relative order (tie-break by original
iteration order). -/
theorem sortDesc_filter_fiber (l : List (ℚ × String × Page)) (s : ℚ) :
    (sortDesc l).filter (fun z => decide (z.1 = s))
      = l.filter (fun z => decide (z.1 = s)) := by
  induction l with
  | nil => rfl
  | cons x xs ih =>
    show ((insertDesc x (sortDesc xs)).filter _) = _
    rw [insertDesc_filter_fiber]
    by_cases hx : x.1 = s
    · rw [if_pos hx, ih]
      simp [List.filter_cons, hx]
    · rw [if_neg hx, ih]
      simp [List.filter_cons, hx]

/-- C5: for every query and ContentSet, the scoring pass keeps exactly
the records with positive score in database order; the sort is a
permutation of them, descending in score, and stable (for every score
value the records of that score keep their original relative order); the
assembled slice is the first `maxResults` of the sorted list, hence has
at most `maxResults` entries, all with positive score; and the rendered
context is exactly these records' blocks. -/
theorem c5_context_selection (mwl : Nat) (tw cw : ℚ) (mr ms : Nat) (q : String)
    (db : List (String × Page)) :
    scoredContent mwl tw cw q db = db.filterMap (scoredOf mwl tw cw q)
    ∧ (sortDesc (scoredContent mwl tw cw q db)).Perm (scoredContent mwl tw cw q db)
    ∧ (sortDesc (scoredContent mwl tw cw q db)).Pairwise (fun a b => b.1 ≤ a.1)
    ∧ (∀ s : ℚ, (sortDesc (scoredContent mwl tw cw q db)).filter (fun z => decide (z.1 = s))
        = (scoredContent mwl tw cw q db).filter (fun z => decide (z.1 = s)))
    ∧ topContent mwl tw cw mr q db = (sortDesc (scoredContent mwl tw cw q db)).take mr
    ∧ (topContent mwl tw cw mr q db).length ≤ mr
    ∧ (topContent mwl tw cw mr q db).all (fun z => decide (0 < z.1)) = true
    ∧ search_relevant_content mwl tw cw mr ms q db
        = (if db.isEmpty then ""
          else if (topContent mwl tw cw mr q db).isEmpty then ""
          else String.intercalate "\n"
            ((topContent mwl tw cw mr q db).map (renderBlock ms))) := by
  refine ⟨scoredContent_eq_filterMap mwl tw cw q db, sortDesc_perm _, sortDesc_sorted _,
    fun s => sortDesc_filter_fiber _ s, rfl, List.length_take_le mr _, ?_, rfl⟩
  rw [List.all_eq_true]
  intro z hz
  have hz2 : z ∈ sortDesc (scoredContent mwl tw cw q db) :=
    List.Sublist.mem hz (List.take_sublist mr _)
  have hz3 : z ∈ scoredContent mwl tw cw q db := ((sortDesc_perm _).mem_iff).mp hz2
  rw [scoredContent_eq_filterMap] at hz3
  obtain ⟨up, hup, hsome⟩ := List.mem_filterMap.mp hz3
  by_cases hs : 0 < calculate_relevance_score mwl tw cw q up.2
  · have h2 : scoredOf mwl tw cw q up
        = some (calculate_relevance_score mwl tw cw q up.2, up.1, up.2) := if_pos hs
    rw [h2] at hsome
    have h3 := Option.some.inj hsome
    rw [← h3]
    exact decide_eq_true hs
  · have h2 : scoredOf mwl tw cw q up = none := if_neg hs
    rw [h2] at hsome
    cases hsome

/-!
Claim C7. A question that matches nothing yields the advisory message
without consulting the collaborator -- except that a blank question is
answered with the fixed prompt message instead, so the claim as stated
fails on blank questions. -/

/-- C7 counterexample: the whitespace-only question matches no record
with positive score (the assembled context is empty), yet
`answer_question` returns the prompt message, not the advisory
"insufficient information" message. -/
theorem c7_counterexample :
    search_relevant_content 3 3 1 3 2000 "   " [] = ""
    ∧ answer_question (fun _ _ => "llm answer") 3 3 1 3 2000 [] "   " = promptMsg
    ∧ promptMsg ≠ advisoryMsg := by
  refine ⟨rfl, ?_, by decide⟩
  show (if pyStripS "   " = "" then promptMsg else _) = promptMsg
  rw [if_pos (by decide)]

/-- C7 (amended): for every non-blank question for which no record of the
ContentSet scores above zero (in particular for an empty ContentSet), the
assembly yields an empty context and `answer_question` returns the
advisory "insufficient information" message, which names the team
contact address; the result is the same for every collaborator, so the
collaborator is never consulted. -/
theorem c7_no_match_advisory (mwl : Nat) (tw cw : ℚ) (mr ms : Nat)
    (collab : String → String → String) (db : List (String × Page)) (q : String)
    (hq : ¬ pyStripS q = "")
    (hscore : ∀ up ∈ db, ¬ (0 < calculate_relevance_score mwl tw cw q up.2)) :
    search_relevant_content mwl tw cw mr ms q db = ""
    ∧ answer_question collab mwl tw cw mr ms db q = advisoryMsg
    ∧ teamEmail.data <:+: advisoryMsg.data := by
  have hscored : scoredContent mwl tw cw q db = [] := by
    rw [scoredContent_eq_filterMap]
    rw [List.filterMap_eq_nil_iff]
    intro up hup
    show (if 0 < calculate_relevance_score mwl tw cw q up.2 then _ else none) = none
    rw [if_neg (hscore up hup)]
  have htop : topContent mwl tw cw mr q db = [] := by
    unfold topContent
    rw [hscored]
    exact List.take_nil
  have hsearch : search_relevant_content mwl tw cw mr ms q db = "" := by
    unfold search_relevant_content
    by_cases hdb : db.isEmpty = true
    · rw [if_pos hdb]
    · rw [if_neg hdb]
      show (if (topContent mwl tw cw mr q db).isEmpty = true then "" else _) = ""
      rw [htop]
      rfl
  refine ⟨hsearch, ?_, ?_⟩
  · unfold answer_question
    rw [if_neg hq]
    show (if pyStripS (search_relevant_content mwl tw cw mr ms q db) = ""
        then advisoryMsg else _) = advisoryMsg
    rw [hsearch]
    rfl
  · refine ⟨advisoryPre.data, advisoryPost.data, ?_⟩
    show advisoryPre.data ++ teamEmail.data ++ advisoryPost.data = advisoryMsg.data
    rw [advisoryMsg, String.data_append, String.data_append]

/-- C7 witness: the non-blank query `"zzz"` on the empty ContentSet
yields the empty context and the advisory message. -/
theorem c7_no_match_advisory_witness :
    (¬ pyStripS "zzz" = "")
    ∧ search_relevant_content 3 3 1 3 2000 "zzz" [] = ""
    ∧ answer_question (fun _ _ => "llm answer") 3 3 1 3 2000 [] "zzz" = advisoryMsg :=
  ⟨by decide,
    (c7_no_match_advisory 3 3 1 3 2000 (fun _ _ => "llm answer") [] "zzz" (by decide)
      (by simp)).1,
    (c7_no_match_advisory 3 3 1 3 2000 (fun _ _ => "llm answer") [] "zzz" (by decide)
      (by simp)).2.1⟩

/-!
Claim C3. `clean_text` is not idempotent: the dot of the first cleaning
regex cannot match a newline, but the whitespace-collapsing pass turns
newlines into spaces, so a second application can delete bracket
artifacts that the first one left alone. On newline-free input the
cleaning is idempotent; the lemmas below establish this. -/

/-- Unfolding equation of `closesB` at a cons cell. -/
theorem closesB_cons (c : Char) (r : List Char) :
    closesB (c :: r) = ([']', '(', ')'].isPrefixOf (c :: r) || closesB r) := rfl

/-- Unfolding equation of `hasMatchB` at a cons cell. -/
theorem hasMatchB_cons (c : Char) (r : List Char) :
    hasMatchB (c :: r) = (((c == '[') && closesB r) || hasMatchB r) := rfl

/-- Helper: the empty text has no closing piece. -/
theorem closesB_nil : closesB [] = false := rfl

/-- Helper: the empty text has no regex match. -/
theorem hasMatchB_nil : hasMatchB [] = false := rfl

/-- Helper: a one-character text has no closing piece. -/
theorem closesB_singleton (x : Char) : closesB [x] = false := by
  rw [closesB_cons, closesB_nil]
  simp [List.isPrefixOf]

/-- Helper: a one-character text has no regex match. -/
theorem hasMatchB_singleton (x : Char) : hasMatchB [x] = false := by
  rw [hasMatchB_cons, closesB_nil, hasMatchB_nil]
  simp

/-- Helper: a text headed by `]()` has the closing piece. -/
theorem closesB_of_head (t : List Char) : closesB (']' :: '(' :: ')' :: t) = true := by
  rw [closesB_cons]
  have h : [']', '(', ')'].isPrefixOf (']' :: '(' :: ')' :: t) = true :=
    List.isPrefixOf_iff_prefix.mpr ⟨t, rfl⟩
  rw [h]
  rfl

/-- Helper: the closing piece survives prepending a character. -/
theorem closesB_cons_of (c : Char) (r : List Char) (h : closesB r = true) :
    closesB (c :: r) = true := by
  rw [closesB_cons, h]
  simp

/-- Helper: the closing piece survives appending text on the right. -/
theorem closesB_append_left (l a : List Char) (h : closesB l = true) :
    closesB (l ++ a) = true := by
  induction l with
  | nil => cases h
  | cons c r ih =>
    rw [closesB_cons] at h
    rcases Bool.or_eq_true_iff.mp h with h1 | h2
    · obtain ⟨t, ht⟩ := List.isPrefixOf_iff_prefix.mp h1
      show closesB (c :: (r ++ a)) = true
      rw [closesB_cons]
      have hpre : [']', '(', ')'].isPrefixOf (c :: (r ++ a)) = true := by
        refine List.isPrefixOf_iff_prefix.mpr ⟨t ++ a, ?_⟩
        rw [← List.append_assoc, ht]
        rfl
      rw [hpre]
      rfl
    · show closesB (c :: (r ++ a)) = true
      exact closesB_cons_of c (r ++ a) (ih h2)

/-- Helper: a regex match survives appending text on the left. -/
theorem hasMatchB_append_right (a l : List Char) (h : hasMatchB l = true) :
    hasMatchB (a ++ l) = true := by
  induction a with
  | nil => exact h
  | cons c a2 ih =>
    show hasMatchB (c :: (a2 ++ l)) = true
    rw [hasMatchB_cons, ih]
    simp

/-- Helper: a regex match survives appending text on the right. -/
theorem hasMatchB_append_left (l a : List Char) (h : hasMatchB l = true) :
    hasMatchB (l ++ a) = true := by
  induction l with
  | nil => cases h
  | cons c r ih =>
    rw [hasMatchB_cons] at h
    show hasMatchB (c :: (r ++ a)) = true
    rw [hasMatchB_cons]
    rcases Bool.or_eq_true_iff.mp h with h1 | h2
    · rw [Bool.and_eq_true] at h1
      obtain ⟨hc, hcl⟩ := h1
      rw [hc, closesB_append_left r a hcl]
      rfl
    · rw [ih h2]
      simp

/-- Helper: a regex match survives prepending a character. -/
theorem hasMatchB_cons_of (c : Char) (r : List Char) (h : hasMatchB r = true) :
    hasMatchB (c :: r) = true := by
  rw [hasMatchB_cons, h]
  simp

/-- Unfolding equation of the regex-deletion scanner: a pending skip is a
drop. -/
theorem rm1Aux_eq_drop : ∀ (r : List Char) (n : Nat), rm1Aux n r = rm1Aux 0 (r.drop n) := by
  intro r
  induction r with
  | nil => intro n; cases n <;> rfl
  | cons c r2 ih =>
    intro n
    cases n with
    | zero => rfl
    | succ k => exact ih k

/-- Unfolding equation of `rm1CloseLen` at a cons cell. -/
theorem rm1CloseLen_cons (c : Char) (r : List Char) :
    rm1CloseLen (c :: r)
      = (if [']', '(', ')'].isPrefixOf (c :: r) then some 3
        else if c = '\n' then none else (rm1CloseLen r).map (· + 1)) := rfl

/-- Unfolding equation of `rm1` at a cons cell. -/
theorem rm1_cons (c : Char) (r : List Char) :
    rm1 (c :: r) = (if c = '[' then
        (match rm1CloseLen r with
          | some n => rm1 (r.drop n)
          | none => c :: rm1 r)
      else c :: rm1 r) := by
  show (if c = '[' then
      (match rm1CloseLen r with
        | some n => rm1Aux n r
        | none => c :: rm1Aux 0 r)
    else c :: rm1Aux 0 r) = _
  by_cases h : c = '['
  · rw [if_pos h, if_pos h]
    rcases hcl : rm1CloseLen r with - | n
    · rfl
    · exact rm1Aux_eq_drop r n
  · rw [if_neg h, if_neg h]
    rfl

/-- Helper: when the close scanner succeeds, the closing piece is
present. -/
theorem rm1CloseLen_some_closes : ∀ (r : List Char) (n : Nat),
    rm1CloseLen r = some n → closesB r = true := by
  intro r
  induction r with
  | nil => intro n h; cases h
  | cons c r2 ih =>
    intro n h
    rw [rm1CloseLen_cons] at h
    by_cases hp : [']', '(', ')'].isPrefixOf (c :: r2) = true
    · rw [closesB_cons, hp]
      rfl
    · rw [if_neg hp] at h
      by_cases hn : c = '\n'
      · rw [if_pos hn] at h
        cases h
      · rw [if_neg hn] at h
        rcases hr : rm1CloseLen r2 with - | m
        · rw [hr] at h
          cases h
        · exact closesB_cons_of c r2 (ih m hr)

/-- Helper: on newline-free text, when the close scanner fails the
closing piece is absent. -/
theorem rm1CloseLen_none_not_closes : ∀ (r : List Char),
    rm1CloseLen r = none → '\n' ∉ r → closesB r = false := by
  intro r
  induction r with
  | nil => intro _ _; rfl
  | cons c r2 ih =>
    intro h hnl
    rw [rm1CloseLen_cons] at h
    by_cases hp : [']', '(', ')'].isPrefixOf (c :: r2) = true
    · rw [if_pos hp] at h
      cases h
    · rw [if_neg hp] at h
      by_cases hn : c = '\n'
      · exact absurd (by rw [← hn]; exact List.mem_cons_self c r2) hnl
      · rw [if_neg hn] at h
        have hr : rm1CloseLen r2 = none := by
          rcases hh : rm1CloseLen r2 with - | m
          · rfl
          · rw [hh] at h
            cases h
        have hnl2 : '\n' ∉ r2 := fun hm => hnl (List.mem_cons_of_mem c hm)
        rw [closesB_cons]
        have hp2 : [']', '(', ')'].isPrefixOf (c :: r2) = false := by
          rcases hq : [']', '(', ')'].isPrefixOf (c :: r2) with - | -
          · rfl
          · exact absurd hq hp
        rw [hp2, ih hr hnl2]
        rfl

/-- Helper: without the closing piece, the first cleaning pass leaves the
text unchanged. -/
theorem rm1_id_of_not_closes : ∀ (l : List Char), closesB l = false → rm1 l = l := by
  intro l
  induction l with
  | nil => intro _; rfl
  | cons c r ih =>
    intro h
    rw [closesB_cons] at h
    obtain ⟨h1, h2⟩ := Bool.or_eq_false_iff.mp h
    rw [rm1_cons]
    by_cases hc : c = '['
    · rw [if_pos hc]
      rcases hcl : rm1CloseLen r with - | n
      · show c :: rm1 r = c :: r
        rw [ih h2]
      · exact absurd (rm1CloseLen_some_closes r n hcl) (by rw [h2]; exact Bool.false_ne_true)
    · rw [if_neg hc, ih h2]

/-- Helper: without a full regex match, the first cleaning pass leaves
the text unchanged. -/
theorem rm1_id_of_no_match : ∀ (l : List Char), hasMatchB l = false → rm1 l = l := by
  intro l
  induction l with
  | nil => intro _; rfl
  | cons c r ih =>
    intro h
    rw [hasMatchB_cons] at h
    obtain ⟨h1, h2⟩ := Bool.or_eq_false_iff.mp h
    rw [rm1_cons]
    by_cases hc : c = '['
    · have hcr : closesB r = false := by
        rcases Bool.and_eq_false_iff.mp h1 with hx | hx
        · rw [hc] at hx
          simp at hx
        · exact hx
      rw [if_pos hc]
      rcases hcl : rm1CloseLen r with - | n
      · show c :: rm1 r = c :: r
        rw [ih h2]
      · exact absurd (rm1CloseLen_some_closes r n hcl)
          (by rw [hcr]; exact Bool.false_ne_true)
    · rw [if_neg hc, ih h2]

/-- Helper: on newline-free input, the output of the first cleaning pass
contains no regex match (the scan consumes every match it can see, and
on newline-free text every closing piece is visible to it). -/
theorem rm1_no_match_fuel : ∀ (k : Nat) (l : List Char), l.length ≤ k → '\n' ∉ l →
    hasMatchB (rm1 l) = false := by
  intro k
  induction k with
  | zero =>
    intro l hl _
    have h0 : l = [] := List.eq_nil_of_length_eq_zero (Nat.le_zero.mp hl)
    rw [h0]
    rfl
  | succ k ih =>
    intro l hl hnl
    cases l with
    | nil => rfl
    | cons c r =>
      have hnlr : '\n' ∉ r := fun hm => hnl (List.mem_cons_of_mem c hm)
      have hlr : r.length ≤ k := by
        rw [List.length_cons] at hl
        omega
      rw [rm1_cons]
      by_cases hc : c = '['
      · rw [if_pos hc]
        rcases hcl : rm1CloseLen r with - | n
        · have hclose : closesB r = false := rm1CloseLen_none_not_closes r hcl hnlr
          have hrm : rm1 r = r := rm1_id_of_not_closes r hclose
          have h2 := ih r hlr hnlr
          rw [hrm] at h2
          show hasMatchB (c :: rm1 r) = false
          rw [hasMatchB_cons, hrm, hclose, h2]
          simp
        · have h1 : (r.drop n).length ≤ k := by
            rw [List.length_drop]
            omega
          have h2 : '\n' ∉ r.drop n :=
            fun hm => hnlr (List.Sublist.mem hm (List.drop_sublist n r))
          exact ih (r.drop n) h1 h2
      · rw [if_neg hc]
        have h2 := ih r hlr hnlr
        have hcb : (c == '[') = false := by
          simp [hc]
        rw [hasMatchB_cons, hcb, h2]
        simp

/-- Helper: on newline-free input, the output of the first cleaning pass
contains no regex match. -/
theorem rm1_no_match (l : List Char) (hnl : '\n' ∉ l) : hasMatchB (rm1 l) = false :=
  rm1_no_match_fuel l.length l (le_refl l.length) hnl

/-- Unfolding equation of the second deletion scanner: a pending skip is
a drop. -/
theorem rm2Aux_eq_drop : ∀ (r : List Char) (n : Nat), rm2Aux n r = rm2Aux 0 (r.drop n) := by
  intro r
  induction r with
  | nil => intro n; cases n <;> rfl
  | cons c r2 ih =>
    intro n
    cases n with
    | zero => rfl
    | succ k => exact ih k

/-- Unfolding equation of `rm2` at a cons cell. -/
theorem rm2_cons (c : Char) (r : List Char) :
    rm2 (c :: r) = (if ['!', '[', ']', '(', ')'].isPrefixOf (c :: r)
      then rm2 (r.drop 4) else c :: rm2 r) := by
  show (if ['!', '[', ']', '(', ')'].isPrefixOf (c :: r)
      then rm2Aux 4 r else c :: rm2Aux 0 r) = _
  by_cases h : ['!', '[', ']', '(', ')'].isPrefixOf (c :: r) = true
  · rw [if_pos h, if_pos h]
    exact rm2Aux_eq_drop r 4
  · rw [if_neg h, if_neg h]
    rfl

/-- Helper: without a full regex match, the second cleaning pass leaves
the text unchanged (its pattern contains a match of the first one). -/
theorem rm2_id_of_no_match : ∀ (l : List Char), hasMatchB l = false → rm2 l = l := by
  intro l
  induction l with
  | nil => intro _; rfl
  | cons c r ih =>
    intro h
    rw [rm2_cons]
    by_cases hp : ['!', '[', ']', '(', ')'].isPrefixOf (c :: r) = true
    · exfalso
      obtain ⟨t, ht⟩ := List.isPrefixOf_iff_prefix.mp hp
      have hm : hasMatchB (c :: r) = true := by
        rw [← ht]
        show hasMatchB ('!' :: '[' :: ']' :: '(' :: ')' :: t) = true
        rw [hasMatchB_cons, hasMatchB_cons, closesB_of_head t]
        simp
      exact Bool.false_ne_true (h.symm.trans hm)
    · rw [if_neg hp]
      rw [hasMatchB_cons] at h
      obtain ⟨-, h2⟩ := Bool.or_eq_false_iff.mp h
      rw [ih h2]

/-- Unfolding equation of `collapseWS` on a one-character list. -/
theorem collapseWS_singleton (c : Char) :
    collapseWS [c] = (if isPySpace c then [' '] else [c]) := rfl

/-- Unfolding equation of `collapseWS` on a two-or-more-character
list. -/
theorem collapseWS_cons2 (c d : Char) (r : List Char) :
    collapseWS (c :: d :: r)
      = (if isPySpace c then
          (if isPySpace d then collapseWS (d :: r) else ' ' :: collapseWS (d :: r))
        else c :: collapseWS (d :: r)) := rfl

/-- Helper: collapsing a text headed by a non-whitespace character keeps
that head. -/
theorem collapseWS_cons_not_space (d : Char) (r : List Char) (h : isPySpace d = false) :
    collapseWS (d :: r) = d :: collapseWS r := by
  cases r with
  | nil =>
    rw [collapseWS_singleton, h, if_neg Bool.false_ne_true]
    rfl
  | cons e r2 =>
    rw [collapseWS_cons2, h, if_neg Bool.false_ne_true]

/-- Helper: collapsing a text headed by a whitespace character yields a
text headed by a space. -/
theorem collapseWS_head_space : ∀ (r : List Char) (d : Char), isPySpace d = true →
    ∃ t, collapseWS (d :: r) = ' ' :: t := by
  intro r
  induction r with
  | nil =>
    intro d h
    exact ⟨[], by rw [collapseWS_singleton, h, if_pos rfl]⟩
  | cons e r2 ih =>
    intro d h
    rw [collapseWS_cons2, h, if_pos rfl]
    rcases he : isPySpace e with - | -
    · rw [if_neg Bool.false_ne_true]
      exact ⟨collapseWS (e :: r2), rfl⟩
    · rw [if_pos rfl]
      exact ih e he

/-- Helper: a closing piece in the collapsed text comes from a closing
piece in the original text. -/
theorem closesB_collapseWS : ∀ (m : List Char),
    closesB (collapseWS m) = true → closesB m = true := by
  intro m
  induction m with
  | nil => intro h; cases h
  | cons c m2 ih =>
    intro h
    cases m2 with
    | nil =>
      exfalso
      rw [collapseWS_singleton] at h
      rcases hc : isPySpace c with - | -
      · rw [hc, if_neg Bool.false_ne_true, closesB_singleton] at h
        cases h
      · rw [hc, if_pos rfl, closesB_singleton] at h
        cases h
    | cons d r =>
      rw [collapseWS_cons2] at h
      rcases hc : isPySpace c with - | -
      · rw [hc, if_neg Bool.false_ne_true] at h
        rw [closesB_cons] at h
        rcases Bool.or_eq_true_iff.mp h with h1 | h2
        · -- the closing piece sits at the head of the collapsed text
          obtain ⟨t, ht⟩ := List.isPrefixOf_iff_prefix.mp h1
          have ht2 : (']' : Char) :: '(' :: ')' :: t = c :: collapseWS (d :: r) := ht
          have hc2 : (']' : Char) = c := (List.cons_eq_cons.mp ht2).1
          have hrest : ('(' : Char) :: ')' :: t = collapseWS (d :: r) :=
            (List.cons_eq_cons.mp ht2).2
          rcases hd : isPySpace d with - | -
          · rw [collapseWS_cons_not_space d r hd] at hrest
            have hd2 : ('(' : Char) = d := (List.cons_eq_cons.mp hrest).1
            have hrest2 : (')' : Char) :: t = collapseWS r := (List.cons_eq_cons.mp hrest).2
            cases r with
            | nil => cases hrest2
            | cons e r2 =>
              rcases he : isPySpace e with - | -
              · rw [collapseWS_cons_not_space e r2 he] at hrest2
                have he2 : (')' : Char) = e := (List.cons_eq_cons.mp hrest2).1
                rw [← hc2, ← hd2, ← he2]
                exact closesB_of_head r2
              · obtain ⟨t3, ht3⟩ := collapseWS_head_space r2 e he
                rw [ht3] at hrest2
                have : (')' : Char) = ' ' := (List.cons_eq_cons.mp hrest2).1
                cases this
          · obtain ⟨t2, ht2b⟩ := collapseWS_head_space r d hd
            rw [ht2b] at hrest
            have : ('(' : Char) = ' ' := (List.cons_eq_cons.mp hrest).1
            cases this
        · exact closesB_cons_of c (d :: r) (ih h2)
      · rw [hc] at h
        rcases hd : isPySpace d with - | -
        · rw [hd, if_pos rfl, if_neg Bool.false_ne_true] at h
          rw [closesB_cons] at h
          rcases Bool.or_eq_true_iff.mp h with h1 | h2
          · obtain ⟨t, ht⟩ := List.isPrefixOf_iff_prefix.mp h1
            have : (']' : Char) = ' ' := (List.cons_eq_cons.mp ht).1
            cases this
          · exact closesB_cons_of c (d :: r) (ih h2)
        · rw [hd, if_pos rfl, if_pos rfl] at h
          exact closesB_cons_of c (d :: r) (ih h)

/-- Helper: a regex match in the collapsed text comes from a regex match
in the original text. -/
theorem hasMatchB_collapseWS : ∀ (m : List Char),
    hasMatchB (collapseWS m) = true → hasMatchB m = true := by
  intro m
  induction m with
  | nil => intro h; cases h
  | cons c m2 ih =>
    intro h
    cases m2 with
    | nil =>
      exfalso
      rw [collapseWS_singleton] at h
      rcases hc : isPySpace c with - | -
      · rw [hc, if_neg Bool.false_ne_true, hasMatchB_singleton] at h
        cases h
      · rw [hc, if_pos rfl, hasMatchB_singleton] at h
        cases h
    | cons d r =>
      rw [collapseWS_cons2] at h
      rcases hc : isPySpace c with - | -
      · rw [hc, if_neg Bool.false_ne_true] at h
        rw [hasMatchB_cons] at h
        rcases Bool.or_eq_true_iff.mp h with h1 | h2
        · rw [Bool.and_eq_true] at h1
          obtain ⟨hcb, hcl⟩ := h1
          have hcl2 : closesB (d :: r) = true := closesB_collapseWS (d :: r) hcl
          rw [hasMatchB_cons, hcb, hcl2]
          rfl
        · exact hasMatchB_cons_of c (d :: r) (ih h2)
      · rw [hc] at h
        rcases hd : isPySpace d with - | -
        · rw [hd, if_pos rfl, if_neg Bool.false_ne_true] at h
          rw [hasMatchB_cons] at h
          rcases Bool.or_eq_true_iff.mp h with h1 | h2
          · rw [Bool.and_eq_true] at h1
            obtain ⟨hcb, -⟩ := h1
            cases hcb
          · exact hasMatchB_cons_of c (d :: r) (ih h2)
        · rw [hd, if_pos rfl, if_pos rfl] at h
          exact hasMatchB_cons_of c (d :: r) (ih h)

/-- Helper: collapsing preserves absence of a regex match. -/
theorem collapse_no_match (l : List Char) (h : hasMatchB l = false) :
    hasMatchB (collapseWS l) = false := by
  rcases hq : hasMatchB (collapseWS l) with - | -
  · rfl
  · exact absurd (hasMatchB_collapseWS l hq)
      (by rw [h]; exact Bool.false_ne_true)

/-- Unfolding equation of `wsNormB` on a one-character list. -/
theorem wsNormB_singleton (c : Char) :
    wsNormB [c] = (!isPySpace c || (c == ' ')) := rfl

/-- Unfolding equation of `wsNormB` on a two-or-more-character list. -/
theorem wsNormB_cons2 (c d : Char) (r : List Char) :
    wsNormB (c :: d :: r)
      = ((!isPySpace c || ((c == ' ') && !isPySpace d)) && wsNormB (d :: r)) := rfl

/-- Helper: whitespace-normal form passes to the tail. -/
theorem wsNormB_tail (x : Char) (rest : List Char) (h : wsNormB (x :: rest) = true) :
    wsNormB rest = true := by
  cases rest with
  | nil => rfl
  | cons y t =>
    rw [wsNormB_cons2, Bool.and_eq_true] at h
    exact h.2

/-- Helper: a non-whitespace character can head any whitespace-normal
text. -/
theorem wsNormB_cons_head_false (x : Char) (X : List Char) (hx : isPySpace x = false)
    (hX : wsNormB X = true) : wsNormB (x :: X) = true := by
  cases X with
  | nil =>
    rw [wsNormB_singleton, hx]
    rfl
  | cons y t =>
    rw [wsNormB_cons2, hx, hX]
    rfl

/-- Helper: the collapsed text is in whitespace-normal form. -/
theorem wsNormB_collapseWS : ∀ (l : List Char), wsNormB (collapseWS l) = true := by
  intro l
  induction l with
  | nil => rfl
  | cons c l2 ih =>
    cases l2 with
    | nil =>
      rw [collapseWS_singleton]
      rcases hc : isPySpace c with - | -
      · rw [if_neg Bool.false_ne_true, wsNormB_singleton, hc]
        rfl
      · rw [if_pos rfl]
        decide
    | cons d r =>
      rw [collapseWS_cons2]
      rcases hc : isPySpace c with - | -
      · rw [if_neg Bool.false_ne_true]
        exact wsNormB_cons_head_false c (collapseWS (d :: r)) hc ih
      · rw [if_pos rfl]
        rcases hd : isPySpace d with - | -
        · rw [if_neg Bool.false_ne_true]
          rw [collapseWS_cons_not_space d r hd]
          have ih2 : wsNormB (d :: collapseWS r) = true := by
            rw [← collapseWS_cons_not_space d r hd]
            exact ih
          rw [wsNormB_cons2, ih2, hd]
          decide
        · rw [if_pos rfl]
          exact ih

/-- Helper: collapsing a whitespace-normal text changes nothing. -/
theorem collapseWS_id_of_wsNorm : ∀ (l : List Char), wsNormB l = true → collapseWS l = l := by
  intro l
  induction l with
  | nil => intro _; rfl
  | cons c l2 ih =>
    cases l2 with
    | nil =>
      intro h
      rw [collapseWS_singleton]
      rcases hc : isPySpace c with - | -
      · rw [if_neg Bool.false_ne_true]
      · rw [if_pos rfl]
        rw [wsNormB_singleton, hc] at h
        have hsp : c = ' ' := by simpa using h
        rw [hsp]
    | cons d r =>
      intro h
      rw [wsNormB_cons2, Bool.and_eq_true] at h
      obtain ⟨h1, h2⟩ := h
      rw [collapseWS_cons2]
      rcases hc : isPySpace c with - | -
      · rw [if_neg Bool.false_ne_true, ih h2]
      · rw [if_pos rfl]
        rw [hc] at h1
        simp only [Bool.not_true, Bool.false_or, Bool.and_eq_true, beq_iff_eq,
          Bool.not_eq_true'] at h1
        obtain ⟨hsp, hd⟩ := h1
        rw [hd, if_neg Bool.false_ne_true, ih h2, hsp]

/-- Helper: whitespace-normal form is closed under dropping a prefix. -/
theorem wsNormB_append_right : ∀ (a b : List Char), wsNormB (a ++ b) = true →
    wsNormB b = true := by
  intro a
  induction a with
  | nil => intro b h; exact h
  | cons x a2 ih =>
    intro b h
    exact ih b (wsNormB_tail x (a2 ++ b) h)

/-- Helper: whitespace-normal form is closed under dropping a suffix. -/
theorem wsNormB_append_left : ∀ (a b : List Char), wsNormB (a ++ b) = true →
    wsNormB a = true := by
  intro a
  induction a with
  | nil => intro b _; rfl
  | cons x a2 ih =>
    intro b h
    cases a2 with
    | nil =>
      cases b with
      | nil =>
        rw [List.append_nil] at h
        exact h
      | cons y t =>
        have h2 : wsNormB (x :: y :: t) = true := h
        rw [wsNormB_cons2, Bool.and_eq_true] at h2
        obtain ⟨h1, -⟩ := h2
        rw [wsNormB_singleton]
        rcases Bool.or_eq_true_iff.mp h1 with h3 | h3
        · rw [h3]
          rfl
        · rw [Bool.and_eq_true] at h3
          rw [h3.1]
          simp
    | cons z a3 =>
      have h2 : wsNormB (x :: z :: (a3 ++ b)) = true := h
      rw [wsNormB_cons2, Bool.and_eq_true] at h2
      obtain ⟨h1, h3⟩ := h2
      rw [wsNormB_cons2, h1]
      have h4 : wsNormB (z :: a3) = true := ih b h3
      rw [h4]
      rfl

/-- Helper: the head surviving a `dropWhile` fails the predicate. -/
theorem dropWhile_head_false (p : Char → Bool) :
    ∀ (l : List Char) (c : Char) (t : List Char),
      List.dropWhile p l = c :: t → p c = false := by
  intro l
  induction l with
  | nil => intro c t h; cases h
  | cons a r ih =>
    intro c t h
    rw [List.dropWhile_cons] at h
    rcases ha : p a with - | -
    · rw [ha, if_neg Bool.false_ne_true] at h
      have hac : a = c := (List.cons_eq_cons.mp h).1
      rw [← hac]
      exact ha
    · rw [ha, if_pos rfl] at h
      exact ih c t h

/-- Helper: `dropWhile` is idempotent. -/
theorem dropWhile_dropWhile (p : Char → Bool) :
    ∀ (x : List Char), List.dropWhile p (List.dropWhile p x) = List.dropWhile p x := by
  intro x
  induction x with
  | nil => rfl
  | cons c r ih =>
    rcases hc : p c with - | -
    · have h1 : List.dropWhile p (c :: r) = c :: r := by
        rw [List.dropWhile_cons, hc, if_neg Bool.false_ne_true]
      rw [h1, List.dropWhile_cons, hc, if_neg Bool.false_ne_true]
    · have h1 : List.dropWhile p (c :: r) = List.dropWhile p r := by
        rw [List.dropWhile_cons, hc, if_pos rfl]
      rw [h1, ih]

/-- Helper: stripping preserves absence of a regex match. -/
theorem strip_no_match (l : List Char) (h : hasMatchB l = false) :
    hasMatchB (pyStrip l) = false := by
  rcases hq : hasMatchB (pyStrip l) with - | -
  · rfl
  · exfalso
    obtain ⟨a, ha⟩ :=
      (List.dropWhile_suffix isPySpace : List.dropWhile isPySpace l <:+ l)
    obtain ⟨b, hb⟩ := (List.dropWhile_suffix isPySpace :
      List.dropWhile isPySpace (List.dropWhile isPySpace l).reverse
        <:+ (List.dropWhile isPySpace l).reverse)
    have hX : List.dropWhile isPySpace l = pyStrip l ++ b.reverse := by
      have h2 := congrArg List.reverse hb
      rw [List.reverse_append, List.reverse_reverse] at h2
      exact h2.symm
    have hXm : hasMatchB (List.dropWhile isPySpace l) = true := by
      rw [hX]
      exact hasMatchB_append_left (pyStrip l) b.reverse hq
    have hlm : hasMatchB l = true := by
      rw [← ha]
      exact hasMatchB_append_right a (List.dropWhile isPySpace l) hXm
    exact Bool.false_ne_true (h.symm.trans hlm)

/-- Helper: stripping preserves whitespace-normal form. -/
theorem strip_wsNorm (l : List Char) (h : wsNormB l = true) :
    wsNormB (pyStrip l) = true := by
  obtain ⟨a, ha⟩ :=
    (List.dropWhile_suffix isPySpace : List.dropWhile isPySpace l <:+ l)
  have hX : wsNormB (List.dropWhile isPySpace l) = true := by
    refine wsNormB_append_right a _ ?_
    rw [ha]
    exact h
  obtain ⟨b, hb⟩ := (List.dropWhile_suffix isPySpace :
    List.dropWhile isPySpace (List.dropWhile isPySpace l).reverse
      <:+ (List.dropWhile isPySpace l).reverse)
  have hX2 : List.dropWhile isPySpace l = pyStrip l ++ b.reverse := by
    have h2 := congrArg List.reverse hb
    rw [List.reverse_append, List.reverse_reverse] at h2
    exact h2.symm
  refine wsNormB_append_left (pyStrip l) b.reverse ?_
  rw [← hX2]
  exact hX

/-- Helper: stripping is idempotent. -/
theorem pyStrip_idem (x : List Char) : pyStrip (pyStrip x) = pyStrip x := by
  have T1 : List.dropWhile isPySpace (pyStrip x) = pyStrip x := by
    obtain ⟨b, hb⟩ := (List.dropWhile_suffix isPySpace :
      List.dropWhile isPySpace (List.dropWhile isPySpace x).reverse
        <:+ (List.dropWhile isPySpace x).reverse)
    have hpre : pyStrip x ++ b.reverse = List.dropWhile isPySpace x := by
      have h2 := congrArg List.reverse hb
      rw [List.reverse_append, List.reverse_reverse] at h2
      exact h2
    rcases hs : pyStrip x with - | ⟨c, t⟩
    · rfl
    · have hA : List.dropWhile isPySpace x = c :: (t ++ b.reverse) := by
        rw [← hpre, hs]
        rfl
      have hc : isPySpace c = false := dropWhile_head_false isPySpace x c _ hA
      rw [List.dropWhile_cons, hc, if_neg Bool.false_ne_true]
  have T2 : List.dropWhile isPySpace (pyStrip x).reverse = (pyStrip x).reverse := by
    show List.dropWhile isPySpace
        ((List.dropWhile isPySpace (List.dropWhile isPySpace x).reverse).reverse).reverse
      = ((List.dropWhile isPySpace (List.dropWhile isPySpace x).reverse).reverse).reverse
    rw [List.reverse_reverse, dropWhile_dropWhile]
  show ((List.dropWhile isPySpace (pyStrip x)).reverse.dropWhile isPySpace).reverse = pyStrip x
  rw [T1, T2, List.reverse_reverse]

/-- C3 counterexample: cleaning is not idempotent. The input `"[a\n]()"`
is left essentially alone by the first application (the regex dot cannot
cross the newline, which whitespace-collapsing then turns into a space),
but the second application deletes the whole bracket artifact. -/
theorem c3_counterexample :
    clean_text "[a\n]()" = "[a ]()"
    ∧ clean_text (clean_text "[a\n]()") = ""
    ∧ clean_text (clean_text "[a\n]()") ≠ clean_text "[a\n]()" :=
  ⟨by decide, by decide, by decide⟩

/-- C3 (amended): on every input containing no newline character, the
cleaning step of the Text Extractor is idempotent: applying `clean_text`
twice yields the same result as applying it once. (On inputs with
newlines idempotence fails.) -/
theorem c3_clean_idempotent_no_newline (s : String) (h : '\n' ∉ s.data) :
    clean_text (clean_text s) = clean_text s := by
  have h1 : hasMatchB (rm1 s.data) = false := rm1_no_match s.data h
  have h2 : rm2 (rm1 s.data) = rm1 s.data := rm2_id_of_no_match (rm1 s.data) h1
  have hc1 : (clean_text s).data = pyStrip (collapseWS (rm1 s.data)) := by
    show pyStrip (collapseWS (rm2 (rm1 s.data))) = _
    rw [h2]
  have h3 : hasMatchB (collapseWS (rm1 s.data)) = false := collapse_no_match _ h1
  have h4 : hasMatchB ((clean_text s).data) = false := by
    rw [hc1]
    exact strip_no_match _ h3
  have h5 : wsNormB (collapseWS (rm1 s.data)) = true := wsNormB_collapseWS _
  have h6 : wsNormB ((clean_text s).data) = true := by
    rw [hc1]
    exact strip_wsNorm _ h5
  have h7 : rm1 ((clean_text s).data) = (clean_text s).data :=
    rm1_id_of_no_match _ h4
  have h8 : rm2 ((clean_text s).data) = (clean_text s).data :=
    rm2_id_of_no_match _ h4
  have h9 : collapseWS ((clean_text s).data) = (clean_text s).data :=
    collapseWS_id_of_wsNorm _ h6
  have h10 : pyStrip ((clean_text s).data) = (clean_text s).data := by
    rw [hc1]
    exact pyStrip_idem _
  show (⟨pyStrip (collapseWS (rm2 (rm1 ((clean_text s).data))))⟩ : String) = clean_text s
  rw [h7, h8, h9, h10]

/-- C3 witness: a newline-free text with a removable bracket artifact,
cleaned twice, equals its single cleaning. -/
theorem c3_clean_idempotent_no_newline_witness :
    ('\n' ∉ (" a  [b]() c " : String).data)
    ∧ clean_text (clean_text " a  [b]() c ") = clean_text " a  [b]() c " :=
  ⟨by decide, c3_clean_idempotent_no_newline " a  [b]() c " (by decide)⟩
